import Mathlib

open scoped List

/-!
# Verification of `lwc-classes`

A shallow embedding of the two source files of the repository:

* `force-app/main/default/lwc/protectThis/protectThis.js` — the `protectThis`
  utility that rewrites an instance's own property table so that every method
  reachable from its prototype keeps its owning instance as execution context.
* `force-app/main/default/lwc/sorting/sorting.js` — the `DemoApp` component
  (the datatable example, sorting inline) and the reusable `DatatableSorter`
  class whose `sortData` entry point sorts an externally owned record array.

Modelling conventions:
* JS scalar values relevant to the sort are `JSVal` (numbers as `Int`, strings,
  and `undefined`).  The JS `>` operator on such values is `jsGt`: numeric
  comparison between numbers, lexicographic comparison between strings, and
  `false` whenever `undefined` is involved (ToNumber(undefined) is NaN, and
  every comparison with NaN is false).  Number/string cross comparisons do not
  occur in this code base (records are homogeneous) and also evaluate to
  `false` here.
* Record objects are attribute tables `Rcd`; arrays and records live in an
  explicit store `JSStore`, addressed by indices, so that object identity
  (which array object a slot holds, which record objects an array contains)
  is expressible.
* `Array.prototype.sort cmp` is modelled by the stable `List.mergeSort` with
  the relation `le a b := cmp a b ≤ 0`, which is the stable sorted order the
  ECMAScript specification mandates for a consistent comparator.
* A JS call either returns a value or throws; fallible operations return
  `Option`.
-/

/-- A JS scalar value as used by the sorting code: a number, a string, or
`undefined` (the result of reading an absent attribute). -/
inductive JSVal where
  | num (n : Int)
  | str (s : String)
  | undefined
deriving DecidableEq, Repr

/-- The JS `>` operator restricted to the values above: numeric on numbers,
lexicographic on strings, and `false` whenever `undefined` is an operand
(NaN comparisons are false).  Number/string mixes also compare `false`;
the code under verification never compares across types (records are
homogeneous, see the data model). -/
def jsGt : JSVal → JSVal → Bool
  | .num a, .num b => a > b
  | .str a, .str b => b < a
  | _, _ => false

/-- The JS expression `(a > b) - (b > a)`: booleans coerce to 0/1, giving the
three-way comparison used by both `sortBy` implementations. -/
def cmpSub (a b : JSVal) : Int :=
  (if jsGt a b then 1 else 0) - (if jsGt b a then 1 else 0)

/-- Association-list lookup by attribute / property name (first match wins,
like JS own-property tables, whose keys are unique). -/
def assocLookup {β : Type} : List (String × β) → String → Option β
  | [], _ => none
  | (k, v) :: rest, name => if k = name then some v else assocLookup rest name

/-- A record object: a table of named scalar attributes. -/
def Rcd := List (String × JSVal)
deriving DecidableEq, Repr

/-- `r[field]` for a record: the attribute's value, or `undefined` when the
attribute is absent. -/
def getField (r : Rcd) (field : String) : JSVal :=
  match assocLookup r field with
  | some v => v
  | none => .undefined

-- Basic facts about the comparison primitives.

/-!
## The object store

Arrays and records are heap objects in JS.  `JSStore` is the fragment of the
heap the sorting code touches: record objects (addressed by `Nat` references)
and array objects (lists of record references, also addressed by `Nat`
references).  Spreading `[...a]` allocates a fresh array; records themselves
are never written by the sorting code.
-/

/-- The heap fragment used by the sorting components: record objects and
arrays of record references, both addressed by indices. -/
structure JSStore where
  records : List Rcd
  arrays : List (List Nat)
deriving DecidableEq, Repr

/-- Dereference a record: the record object a reference denotes (a dangling
reference reads as the empty record; it never occurs in well-formed runs). -/
def recAt (st : JSStore) (r : Nat) : Rcd :=
  (st.records.get? r).getD []

/-- The value of `rec[field]` for the record referenced by `r`. -/
def keyOf (st : JSStore) (field : String) (r : Nat) : JSVal :=
  getField (recAt st r) field

/-- The boolean relation `cmp a b ≤ 0` that `Array.prototype.sort` induces on
the array elements (record references), reading the record objects from the
store. -/
def cmpLe (st : JSStore) (cmp : Rcd → Rcd → Int) (a b : Nat) : Bool :=
  decide (cmp (recAt st a) (recAt st b) ≤ 0)

/-- `array.sort(cmp)` on an array of record references: the stable sorted
order determined by the comparator (ECMAScript `Array.prototype.sort` with a
consistent comparator), modelled by the stable `List.mergeSort`. -/
def jsSortRefs (st : JSStore) (cmp : Rcd → Rcd → Int) (l : List Nat) : List Nat :=
  l.mergeSort (cmpLe st cmp)

/-- The `event.detail` payload of the datatable sort event:
`{ fieldName, sortDirection }`. -/
structure SortEventDetail where
  fieldName : String
  sortDirection : String
deriving DecidableEq, Repr

/-!
## `DatatableSorter` (sorting.js, reusable class)

```js
export class DatatableSorter {
    defaultSortDirection = 'asc';
    sortDirection = 'asc';
    sortedBy = null;
    parent;
    dataFieldName

    constructor(parent, dataFieldName) {
        protectThis(this);
        this.parent = parent;
        this.dataFieldName = dataFieldName;
    }

    sortBy(field, reverse) {
        return function (a, b) {
            a = a[field];
            b = b[field];
            return reverse * ((a > b) - (b > a));
        };
    }

    sortData(event) {
        const { fieldName, sortDirection } = event.detail;
        const cloneData = [...this.parent[this.dataFieldName]];

        cloneData.sort(this.sortBy(fieldName, sortDirection === 'asc' ? -1 : 1));
        this.parent[this.dataFieldName] = cloneData;
        this.sortDirection = sortDirection;
        this.sortedBy = fieldName;
    }
}
```

The pair `(parent, dataFieldName)` designates one attribute slot on the owner;
it is modelled as `parentData`, the array reference currently held in
`owner[slotName]`.  `sortData` reads that array, sorts a shallow copy
(`[...]` allocates a fresh array object; `.sort` mutates only that copy) and
publishes the copy by rebinding the slot.
-/

namespace DatatableSorter

/-- The instance fields of `DatatableSorter`, with their class-field
initializers (the state a fresh `new DatatableSorter(...)` starts in). -/
structure SorterState where
  defaultSortDirection : String := "asc"
  sortDirection : String := "asc"
  sortedBy : Option String := none
deriving DecidableEq, Repr

/-- The state a `DatatableSorter` is constructed in: the class field
initializers run before the constructor body, which only stores the
`parent` / `dataFieldName` binding (modelled as `SorterWorld.parentData`)
and applies `protectThis` (verified separately on the object model). -/
def construct : SorterState := {}

/-- The world a `DatatableSorter` operates on: the sorter's own state, the
owner's bound data slot `parent[dataFieldName]` (an array reference), and the
object store. -/
structure SorterWorld where
  sorter : SorterState
  parentData : Nat
  store : JSStore
deriving DecidableEq, Repr

/-- `sortBy(field, reverse)`: the comparator
`(a, b) => reverse * ((a[field] > b[field]) - (b[field] > a[field]))`. -/
def sortBy (field : String) (reverse : Int) (a b : Rcd) : Int :=
  reverse * cmpSub (getField a field) (getField b field)

/-- `sortData(event)`.  Reading `[...this.parent[this.dataFieldName]]` throws
(`none`) unless the slot holds an array; otherwise the shallow copy is sorted
with `this.sortBy(fieldName, sortDirection === 'asc' ? -1 : 1)`, published as
a freshly allocated array in the owner's slot, and the sorter state fields are
updated. -/
def sortData (w : SorterWorld) (event : SortEventDetail) : Option SorterWorld :=
  match w.store.arrays.get? w.parentData with
  | none => none
  | some cloneData =>
    let sorted := jsSortRefs w.store
      (sortBy event.fieldName (if event.sortDirection = "asc" then -1 else 1)) cloneData
    some { sorter := { w.sorter with
                        sortDirection := event.sortDirection,
                        sortedBy := some event.fieldName },
           parentData := w.store.arrays.length,
           store := { w.store with arrays := w.store.arrays ++ [sorted] } }

end DatatableSorter

/-!
## `DemoApp` (sorting.js, inline demo component)

```js
export default class DemoApp extends LightningElement {
    data = data;
    columns = columns;
    defaultSortDirection = 'asc';
    sortDirection = 'asc';
    sortedBy;

    sortBy(field, reverse, primer) {
        const key = primer
            ? function (x) { return primer(x[field]); }
            : function (x) { return x[field]; };
        return function (a, b) {
            a = key(a);
            b = key(b);
            return reverse * ((a > b) - (b > a));
        };
    }

    onHandleSort(event) {
        const { fieldName: sortedBy, sortDirection } = event.detail;
        const cloneData = [...this.data];
        cloneData.sort(this.sortBy(sortedBy, sortDirection === 'asc' ? 1 : -1));
        this.data = cloneData;
        this.sortDirection = sortDirection;
        this.sortedBy = sortedBy;
    }
}
```
-/

namespace DemoApp

/-- `sortBy(field, reverse, primer)`: like the class comparator but with an
optional `primer` applied to the field values; `onHandleSort` passes no
primer (`undefined`, falsy), so `key` reads the raw field. -/
def sortBy (field : String) (reverse : Int) (primer : Option (JSVal → JSVal))
    (a b : Rcd) : Int :=
  let key : Rcd → JSVal :=
    match primer with
    | some p => fun x => p (getField x field)
    | none => fun x => getField x field
  reverse * cmpSub (key a) (key b)

/-- The demo component's state relevant to sorting: its `data` property (an
array reference), the sort indicator fields, and the store. -/
structure DemoWorld where
  data : Nat
  sortDirection : String := "asc"
  sortedBy : Option String := none
  store : JSStore
deriving DecidableEq, Repr

/-- `onHandleSort(event)` of the demo component: same shape as
`DatatableSorter.sortData`, but the direction factor is
`sortDirection === 'asc' ? 1 : -1` and the data lives on the component
itself. -/
def onHandleSort (w : DemoWorld) (event : SortEventDetail) : Option DemoWorld :=
  match w.store.arrays.get? w.data with
  | none => none
  | some cloneData =>
    let sorted := jsSortRefs w.store
      (sortBy event.fieldName (if event.sortDirection = "asc" then 1 else -1) none) cloneData
    some { data := w.store.arrays.length,
           sortDirection := event.sortDirection,
           sortedBy := some event.fieldName,
           store := { w.store with arrays := w.store.arrays ++ [sorted] } }

end DemoApp

/-!
## Concrete fixtures

The demo dataset of `sorting.js` and two smaller tables, used as concrete
inputs for the claims' witnesses.
-/

/-- The `data` constant of `sorting.js` as record objects (references
`0..3`). -/
def demoRecords : List Rcd :=
  [[("id", .num 1), ("name", .str "Billy Simonns"), ("age", .num 40),
    ("email", .str "billy@salesforce.com")],
   [("id", .num 2), ("name", .str "Kelsey Denesik"), ("age", .num 35),
    ("email", .str "kelsey@salesforce.com")],
   [("id", .num 3), ("name", .str "Kyle Ruecker"), ("age", .num 50),
    ("email", .str "kyle@salesforce.com")],
   [("id", .num 4), ("name", .str "Krystina Kerluke"), ("age", .num 37),
    ("email", .str "krystina@salesforce.com")]]

/-- A store holding the demo records in a single array. -/
def demoStore : JSStore := { records := demoRecords, arrays := [[0, 1, 2, 3]] }

/-- A `DatatableSorter` owner bound to the demo array. -/
def demoSorterWorld : DatatableSorter.SorterWorld :=
  { sorter := {}, parentData := 0, store := demoStore }

/-- A `DemoApp` holding the demo array. -/
def demoAppWorld : DemoApp.DemoWorld := { data := 0, store := demoStore }

/-- The three-record table `[{age:40},{age:35},{age:50}]` of the spec's P4. -/
def agesStore : JSStore :=
  { records := [[("age", .num 40)], [("age", .num 35)], [("age", .num 50)]],
    arrays := [[0, 1, 2]] }

/-- A `DatatableSorter` owner bound to the three-record table. -/
def agesWorld : DatatableSorter.SorterWorld :=
  { sorter := {}, parentData := 0, store := agesStore }

/-- A minimal two-record table. -/
def smallStore : JSStore :=
  { records := [[("age", .num 40)], [("age", .num 35)]], arrays := [[0, 1]] }

/-- A `DatatableSorter` owner bound to the two-record table. -/
def smallWorld : DatatableSorter.SorterWorld :=
  { sorter := {}, parentData := 0, store := smallStore }

/-- A two-record table whose records tie on `age`. -/
def tieStore : JSStore :=
  { records := [[("id", .num 1), ("age", .num 35)], [("id", .num 2), ("age", .num 35)]],
    arrays := [[0, 1]] }

/-- A `DatatableSorter` owner bound to the tied table. -/
def tieWorld : DatatableSorter.SorterWorld :=
  { sorter := {}, parentData := 0, store := tieStore }

/-- The sort event `{fieldName:'age', sortDirection:'asc'}`. -/
def ascAge : SortEventDetail := { fieldName := "age", sortDirection := "asc" }

/-- The sort event `{fieldName:'age', sortDirection:'desc'}`. -/
def descAge : SortEventDetail := { fieldName := "age", sortDirection := "desc" }

/-!
## Order-theoretic facts about the comparator

Both `sortBy` variants build the comparator `reverse * ((a > b) - (b > a))`
over field values.  On a homogeneous column (all numbers, all strings, or the
field absent everywhere — the spec's data model: "an ordered sequence of
homogeneous records") this comparator is induced by a three-way comparison on
the keys that is antisymmetric and whose non-positive part is transitive, so
`Array.prototype.sort`'s result is genuinely sorted and stable.
-/

/-- `(x > y) - (y > x)` on numbers. -/
def cmpInt (x y : Int) : Int :=
  (if x > y then 1 else 0) - (if y > x then 1 else 0)

/-- `(x > y) - (y > x)` on strings (`>` is lexicographic). -/
def cmpStr (x y : String) : Int :=
  (if y < x then 1 else 0) - (if x < y then 1 else 0)

/-!
## Homogeneous columns
-/

/-- The value of the sort field across the listed records is homogeneous:
all numbers, all strings, or absent everywhere.  This is the spec's data
model ("an ordered sequence of homogeneous records" of scalar attributes);
the comparator is a consistent comparison function exactly on such columns. -/
def FieldUniform (st : JSStore) (field : String) (l : List Nat) : Prop :=
  (∀ r ∈ l, ∃ n, keyOf st field r = .num n) ∨
  (∀ r ∈ l, ∃ s, keyOf st field r = .str s) ∨
  (∀ r ∈ l, keyOf st field r = .undefined)

/-- Numeric key of a value (junk off the numeric case). -/
def numVal : JSVal → Int
  | .num n => n
  | _ => 0

/-- String key of a value (junk off the string case). -/
def strVal : JSVal → String
  | .str s => s
  | _ => ""

/-!
## The `protectThis` object model (protectThis.js)

```js
function protectThis(objectInstance) {
    Object.getOwnPropertyNames( Object.getPrototypeOf(objectInstance) )
        .filter(maybeFunctionName => typeof objectInstance[maybeFunctionName] === 'function')
        .forEach(function(functionName) {
            const initialFunctionDefinition = objectInstance[functionName];
            objectInstance[functionName] = function()  {
                return initialFunctionDefinition.apply(objectInstance, arguments);
            }
        });
}
```

Instances are own-property tables with a reference to a shared prototype
object; method bodies are opaque callables receiving the `this` value (an
object reference, or `undefined` for a detached call) and the argument list.
A call either returns a value or throws a `TypeError` (`none`) when the
callee is not callable.
-/

/-- A callable: `this`-value (an object reference, or `none` for
`undefined`) and arguments to result; `none` models a throw. -/
def Fn : Type := Option Nat → List JSVal → Option JSVal

/-- A property value: a callable or a data value. -/
inductive PropVal where
  | fn (f : Fn)
  | val (v : JSVal)

/-- `typeof p === 'function'` on a lookup result. -/
def isFunction : Option PropVal → Bool
  | some (.fn _) => true
  | _ => false

/-- `callee.apply(thisArg, args)`: calling a non-callable (or `undefined`)
throws (`none`). -/
def applyFn (callee : Option PropVal) (thisArg : Option Nat)
    (args : List JSVal) : Option JSVal :=
  match callee with
  | some (.fn f) => f thisArg args
  | _ => none

/-- An object instance: its own property table and the reference to its
class's shared prototype object. -/
structure Instance where
  own : List (String × PropVal)
  protoId : Nat

/-- The object world: the shared prototype objects and the instances. -/
structure World where
  protos : List (List (String × PropVal))
  objs : List Instance

/-- JS property assignment on an own table: an existing key is overwritten
in place (keeping its enumeration position), a new key is appended
(insertion order). -/
def setProp : List (String × PropVal) → String → PropVal → List (String × PropVal)
  | [], k, v => [(k, v)]
  | (k', v') :: rest, k, v =>
    if k' = k then (k, v) :: rest else (k', v') :: setProp rest k v

/-- The own property table of `Object.getPrototypeOf(obj)`. -/
def protoOf (w : World) (objId : Nat) : List (String × PropVal) :=
  match w.objs.get? objId with
  | some o => (w.protos.get? o.protoId).getD []
  | none => []

/-- Property lookup `obj[name]`: the own table first, then the prototype;
`none` is `undefined`. -/
def getProp (w : World) (objId : Nat) (name : String) : Option PropVal :=
  match w.objs.get? objId with
  | some o =>
    match assocLookup o.own name with
    | some v => some v
    | none => assocLookup ((w.protos.get? o.protoId).getD []) name
  | none => none

/-- Assignment `obj[name] = v` into the instance's own table. -/
def setOwn (w : World) (objId : Nat) (name : String) (v : PropVal) : World :=
  match w.objs.get? objId with
  | some o =>
    { w with objs := w.objs.set objId { o with own := setProp o.own name v } }
  | none => w

/-- One iteration of the `forEach` body of `protectThis`:
`const initialFunctionDefinition = objectInstance[functionName]` is captured
by value, and the own property is overwritten with
`function() { return initialFunctionDefinition.apply(objectInstance, arguments); }`
— a wrapper that ignores the `this` it is called with. -/
def wrapStep (objectInstance : Nat) (w : World) (functionName : String) : World :=
  let initialFunctionDefinition := getProp w objectInstance functionName
  setOwn w objectInstance functionName
    (.fn fun _ args => applyFn initialFunctionDefinition (some objectInstance) args)

/-- `protectThis(objectInstance)`: enumerate the own property names of the
prototype, keep those for which `typeof objectInstance[name] === 'function'`
(own-then-prototype lookup), then rewrap each such own property in order. -/
def protectThis (w : World) (objectInstance : Nat) : World :=
  (((protoOf w objectInstance).map Prod.fst).filter
      (fun maybeFunctionName =>
        isFunction (getProp w objectInstance maybeFunctionName))).foldl
    (wrapStep objectInstance) w

/-- `instance.method(args)`: property lookup, then a call with the instance
as `this`. -/
def invokeMethod (w : World) (objId : Nat) (name : String)
    (args : List JSVal) : Option JSVal :=
  applyFn (getProp w objId name) (some objId) args

/-- `const f = instance.method; f(args)`: the extracted reference is invoked
with no calling context (`this` is `undefined` in module code). -/
def invokeDetached (w : World) (objId : Nat) (name : String)
    (args : List JSVal) : Option JSVal :=
  applyFn (getProp w objId name) none args

/-- A sample method body: observes its `this` and its argument count, so a
lost context is observable. -/
def exampleFn : Fn := fun thisArg args =>
  some (.num (match thisArg with
    | some i => (i : Int) + (args.length : Int)
    | none => -1))

/-- A sample prototype with one method and one data property. -/
def exampleProto : List (String × PropVal) :=
  [("m", .fn exampleFn), ("tag", .val (.str "proto"))]

/-- Two instances sharing the sample prototype. -/
def exampleObjWorld : World :=
  { protos := [exampleProto],
    objs := [{ own := [], protoId := 0 }, { own := [], protoId := 0 }] }

/-- A prototype exposing no callable member. -/
def plainProto : List (String × PropVal) := [("tag", .val (.num 1))]

/-- One instance of the callable-free prototype. -/
def plainWorld : World :=
  { protos := [plainProto], objs := [{ own := [], protoId := 0 }] }

/-!
## Theorems
-/

theorem jsGt_asymm (a b : JSVal) (h : jsGt a b = true) : jsGt b a = false := by
  cases a <;> cases b <;> simp_all [jsGt]
  · omega
  · exact le_of_lt h

theorem jsGt_irrefl (a : JSVal) : jsGt a a = false := by
  cases a <;> simp [jsGt]

theorem cmpSub_antisymm (a b : JSVal) : cmpSub b a = -cmpSub a b := by
  unfold cmpSub
  rcases h1 : jsGt a b
  · rcases h2 : jsGt b a <;> simp [h1, h2]
  · simp [h1, jsGt_asymm a b h1]

theorem cmpSub_self_eq_zero (a : JSVal) : cmpSub a a = 0 := by
  simp [cmpSub, jsGt_irrefl]

/-- With no primer, the demo comparator coincides with the class comparator. -/
theorem DemoApp.sortBy_none (field : String) (reverse : Int) :
    DemoApp.sortBy field reverse none = DatatableSorter.sortBy field reverse := rfl

theorem cmpSub_num (x y : Int) : cmpSub (.num x) (.num y) = cmpInt x y := by
  simp [cmpSub, jsGt, cmpInt]

theorem cmpSub_str (x y : String) : cmpSub (.str x) (.str y) = cmpStr x y := by
  simp [cmpSub, jsGt, cmpStr]

theorem cmpSub_undefined : cmpSub .undefined .undefined = 0 := rfl

theorem cmpInt_antisymm (x y : Int) : cmpInt y x = -cmpInt x y := by
  unfold cmpInt; split_ifs <;> omega

theorem cmpInt_nonpos (x y : Int) : cmpInt x y ≤ 0 ↔ x ≤ y := by
  unfold cmpInt; split_ifs <;> omega

theorem cmpStr_antisymm (x y : String) : cmpStr y x = -cmpStr x y := by
  unfold cmpStr; split_ifs <;> omega

theorem cmpStr_nonpos (x y : String) : cmpStr x y ≤ 0 ↔ x ≤ y := by
  unfold cmpStr
  split_ifs with h1 h2
  · exact absurd h2 (asymm h1)
  · simp only [Int.sub_zero]
    constructor
    · intro h; omega
    · intro h; exact absurd h1 (not_lt.mpr h)
  · simp only [Int.zero_sub]
    constructor
    · intro _; exact le_of_lt ‹x < y›
    · intro _; omega
  · simp only [Int.sub_zero]
    constructor
    · intro _; exact le_of_not_lt h1
    · intro _; omega

theorem cmpInt_trans_nonpos (x y z : Int) (h1 : cmpInt x y ≤ 0) (h2 : cmpInt y z ≤ 0) :
    cmpInt x z ≤ 0 := by
  rw [cmpInt_nonpos] at *
  exact le_trans h1 h2

theorem cmpStr_trans_nonpos (x y z : String) (h1 : cmpStr x y ≤ 0) (h2 : cmpStr y z ≤ 0) :
    cmpStr x z ≤ 0 := by
  rw [cmpStr_nonpos] at *
  exact le_trans h1 h2

/-- The relation `reverse * cmpK x y ≤ 0` is total whenever `cmpK` is
antisymmetric — for any `reverse`, which is why the comparator never makes
`sort` see contradictory answers. -/
theorem revLe_total {κ : Type} (cmpK : κ → κ → Int) (rev : Int)
    (anti : ∀ x y, cmpK y x = -cmpK x y) :
    ∀ x y : κ, rev * cmpK x y ≤ 0 ∨ rev * cmpK y x ≤ 0 := by
  intro x y
  rcases le_or_lt (rev * cmpK x y) 0 with h | h
  · exact Or.inl h
  · right
    rw [anti, mul_neg]
    omega

/-- The relation `reverse * cmpK x y ≤ 0` is transitive for `reverse = ±1`
when `cmpK` is antisymmetric with a transitive non-positive part. -/
theorem revLe_trans {κ : Type} (cmpK : κ → κ → Int) (rev : Int)
    (hrev : rev = 1 ∨ rev = -1)
    (anti : ∀ x y, cmpK y x = -cmpK x y)
    (transNP : ∀ x y z, cmpK x y ≤ 0 → cmpK y z ≤ 0 → cmpK x z ≤ 0) :
    ∀ x y z : κ, rev * cmpK x y ≤ 0 → rev * cmpK y z ≤ 0 → rev * cmpK x z ≤ 0 := by
  intro x y z hxy hyz
  rcases hrev with rfl | rfl
  · simp only [one_mul] at *
    exact transNP x y z hxy hyz
  · have h1 : cmpK y x ≤ 0 := by rw [anti]; omega
    have h2 : cmpK z y ≤ 0 := by rw [anti]; omega
    have h3 : cmpK z x ≤ 0 := transNP z y x h2 h1
    rw [anti x z] at h3
    omega

/-!
## Transporting `mergeSort` lemmas along a key map

`List.sorted_mergeSort` and `List.pair_sublist_mergeSort` require the boolean
relation to be transitive and total on the *whole* type.  Our relation on
record references is only well behaved on the references actually present in
the array (their keys are homogeneous there), so we transport the lemmas
through the map `r ↦ (r, k r)` into a key type on which the order is globally
well behaved.
-/

theorem pairwise_mergeSort_of_key {κ : Type} (k : Nat → κ) (leK : κ → κ → Bool)
    (le : Nat → Nat → Bool) (l : List Nat)
    (agree : ∀ a ∈ l, ∀ b ∈ l, le a b = leK (k a) (k b))
    (transK : ∀ x y z : κ, leK x y = true → leK y z = true → leK x z = true)
    (totalK : ∀ x y : κ, leK x y || leK y x) :
    (l.mergeSort le).Pairwise (fun a b => le a b = true) := by
  classical
  set pairF : Nat → Nat × κ := fun r => (r, k r) with hpairF
  set leP : Nat × κ → Nat × κ → Bool := fun a b => leK a.2 b.2 with hleP
  have hl : ∀ a ∈ l.map pairF, ∀ b ∈ l.map pairF, leP a b = le a.1 b.1 := by
    intro a ha b hb
    obtain ⟨ra, hra, rfl⟩ := List.mem_map.mp ha
    obtain ⟨rb, hrb, rfl⟩ := List.mem_map.mp hb
    simp [hleP, hpairF, agree ra hra rb hrb]
  have hmap : ((l.map pairF).mergeSort leP).map Prod.fst =
      ((l.map pairF).map Prod.fst).mergeSort le := List.map_mergeSort hl
  have hfst : (l.map pairF).map Prod.fst = l := by
    rw [List.map_map]
    exact List.map_id l
  have hp : ((l.map pairF).mergeSort leP).Pairwise (fun a b => leP a b = true) :=
    List.sorted_mergeSort (fun a b c => transK a.2 b.2 c.2) (fun a b => totalK a.2 b.2) _
  have hp' : ((l.map pairF).mergeSort leP).Pairwise (fun a b => le a.1 b.1 = true) := by
    refine hp.imp_of_mem ?_
    intro a b ha hb hab
    have ha' := List.mem_mergeSort.mp ha
    have hb' := List.mem_mergeSort.mp hb
    rw [hl a ha' b hb'] at hab
    exact hab
  have h2 : (((l.map pairF).mergeSort leP).map Prod.fst).Pairwise
      (fun a b => le a b = true) := List.pairwise_map.mpr hp'
  rw [hmap, hfst] at h2
  exact h2

theorem pair_sublist_mergeSort_of_key {κ : Type} (k : Nat → κ) (leK : κ → κ → Bool)
    (le : Nat → Nat → Bool) (l : List Nat)
    (agree : ∀ a ∈ l, ∀ b ∈ l, le a b = leK (k a) (k b))
    (transK : ∀ x y z : κ, leK x y = true → leK y z = true → leK x z = true)
    (totalK : ∀ x y : κ, leK x y || leK y x)
    (x y : Nat) (hs : [x, y] <+ l) (hxy : le x y = true) :
    [x, y] <+ l.mergeSort le := by
  classical
  set pairF : Nat → Nat × κ := fun r => (r, k r) with hpairF
  set leP : Nat × κ → Nat × κ → Bool := fun a b => leK a.2 b.2 with hleP
  have hl : ∀ a ∈ l.map pairF, ∀ b ∈ l.map pairF, leP a b = le a.1 b.1 := by
    intro a ha b hb
    obtain ⟨ra, hra, rfl⟩ := List.mem_map.mp ha
    obtain ⟨rb, hrb, rfl⟩ := List.mem_map.mp hb
    simp [hleP, hpairF, agree ra hra rb hrb]
  have hmap : ((l.map pairF).mergeSort leP).map Prod.fst =
      ((l.map pairF).map Prod.fst).mergeSort le := List.map_mergeSort hl
  have hfst : (l.map pairF).map Prod.fst = l := by
    rw [List.map_map]
    exact List.map_id l
  have hxmem : x ∈ l := hs.subset (by simp)
  have hymem : y ∈ l := hs.subset (by simp)
  have hsP : [pairF x, pairF y] <+ l.map pairF := by
    have := hs.map pairF
    simpa using this
  have hP : leP (pairF x) (pairF y) = true := by
    have := agree x hxmem y hymem
    simp [hleP, hpairF, ← this, hxy]
  have hsub : [pairF x, pairF y] <+ (l.map pairF).mergeSort leP :=
    List.pair_sublist_mergeSort (fun a b c => transK a.2 b.2 c.2)
      (fun a b => totalK a.2 b.2) hP hsP
  have := hsub.map Prod.fst
  rw [hmap, hfst] at this
  simpa [hpairF] using this

/-- In a list that is pairwise ordered by `R`, an element `x` that `R`-blocks
`y` (`¬ R y x`) and is distinct from it must occur before it: `[x, y]` is a
sublist. -/
theorem pair_sublist_of_pairwise {α : Type} {R : α → α → Prop} :
    ∀ {l : List α}, l.Pairwise R → ∀ {x y : α}, x ∈ l → y ∈ l → x ≠ y →
      ¬ R y x → [x, y] <+ l := by
  intro l hl
  induction hl with
  | nil => intro x y hx _ _ _; exact absurd hx (List.not_mem_nil x)
  | cons ha _ ih =>
    intro x y hx hy hne hnR
    rcases List.mem_cons.mp hx with rfl | hx'
    · rcases List.mem_cons.mp hy with rfl | hy'
      · exact absurd rfl hne
      · exact (List.singleton_sublist.mpr hy').cons₂ x
    · rcases List.mem_cons.mp hy with rfl | hy'
      · exact absurd (ha x hx') hnR
      · exact (ih hx' hy' hne hnR).cons _

theorem cmpLe_sortBy (st : JSStore) (f : String) (rev : Int) (a b : Nat) :
    cmpLe st (DatatableSorter.sortBy f rev) a b =
      decide (rev * cmpSub (keyOf st f a) (keyOf st f b) ≤ 0) := rfl

/-- On a homogeneous column the published array is genuinely ordered by the
comparator relation. -/
theorem uniform_pairwise (st : JSStore) (f : String) (rev : Int) (l : List Nat)
    (hrev : rev = 1 ∨ rev = -1) (hu : FieldUniform st f l) :
    (jsSortRefs st (DatatableSorter.sortBy f rev) l).Pairwise
      (fun a b => cmpLe st (DatatableSorter.sortBy f rev) a b = true) := by
  unfold jsSortRefs
  rcases hu with hn | hs | hun
  · apply pairwise_mergeSort_of_key (fun r => numVal (keyOf st f r))
      (fun u v => decide (rev * cmpInt u v ≤ 0))
    · intro a ha b hb
      obtain ⟨na, hna⟩ := hn a ha
      obtain ⟨nb, hnb⟩ := hn b hb
      simp [cmpLe_sortBy, hna, hnb, numVal, cmpSub_num]
    · intro x y z hx hy
      simp only [decide_eq_true_eq] at *
      exact revLe_trans cmpInt rev hrev cmpInt_antisymm cmpInt_trans_nonpos x y z hx hy
    · intro x y
      rcases revLe_total cmpInt rev cmpInt_antisymm x y with h | h <;> simp [h]
  · apply pairwise_mergeSort_of_key (fun r => strVal (keyOf st f r))
      (fun u v => decide (rev * cmpStr u v ≤ 0))
    · intro a ha b hb
      obtain ⟨sa, hsa⟩ := hs a ha
      obtain ⟨sb, hsb⟩ := hs b hb
      simp [cmpLe_sortBy, hsa, hsb, strVal, cmpSub_str]
    · intro x y z hx hy
      simp only [decide_eq_true_eq] at *
      exact revLe_trans cmpStr rev hrev cmpStr_antisymm cmpStr_trans_nonpos x y z hx hy
    · intro x y
      rcases revLe_total cmpStr rev cmpStr_antisymm x y with h | h <;> simp [h]
  · apply pairwise_mergeSort_of_key (fun _ => ()) (fun _ _ => true)
    · intro a ha b hb
      simp [cmpLe_sortBy, hun a ha, hun b hb, cmpSub_undefined]
    · intro x y z _ _
      rfl
    · intro x y
      rfl

/-- On a homogeneous column the sort is stable: a pair already related by the
comparator relation (in particular a tie) keeps its relative order. -/
theorem uniform_pair_sublist (st : JSStore) (f : String) (rev : Int) (l : List Nat)
    (hrev : rev = 1 ∨ rev = -1) (hu : FieldUniform st f l)
    (x y : Nat) (hs : [x, y] <+ l)
    (hxy : cmpLe st (DatatableSorter.sortBy f rev) x y = true) :
    [x, y] <+ jsSortRefs st (DatatableSorter.sortBy f rev) l := by
  unfold jsSortRefs
  rcases hu with hn | hstr | hun
  · apply pair_sublist_mergeSort_of_key (fun r => numVal (keyOf st f r))
      (fun u v => decide (rev * cmpInt u v ≤ 0)) _ _ _ _ _ _ _ hs hxy
    · intro a ha b hb
      obtain ⟨na, hna⟩ := hn a ha
      obtain ⟨nb, hnb⟩ := hn b hb
      simp [cmpLe_sortBy, hna, hnb, numVal, cmpSub_num]
    · intro u v w hx hy
      simp only [decide_eq_true_eq] at *
      exact revLe_trans cmpInt rev hrev cmpInt_antisymm cmpInt_trans_nonpos u v w hx hy
    · intro u v
      rcases revLe_total cmpInt rev cmpInt_antisymm u v with h | h <;> simp [h]
  · apply pair_sublist_mergeSort_of_key (fun r => strVal (keyOf st f r))
      (fun u v => decide (rev * cmpStr u v ≤ 0)) _ _ _ _ _ _ _ hs hxy
    · intro a ha b hb
      obtain ⟨sa, hsa⟩ := hstr a ha
      obtain ⟨sb, hsb⟩ := hstr b hb
      simp [cmpLe_sortBy, hsa, hsb, strVal, cmpSub_str]
    · intro u v w hx hy
      simp only [decide_eq_true_eq] at *
      exact revLe_trans cmpStr rev hrev cmpStr_antisymm cmpStr_trans_nonpos u v w hx hy
    · intro u v
      rcases revLe_total cmpStr rev cmpStr_antisymm u v with h | h <;> simp [h]
  · apply pair_sublist_mergeSort_of_key (fun _ => ()) (fun _ _ => true) _ _ _ _ _ _ _ hs hxy
    · intro a ha b hb
      simp [cmpLe_sortBy, hun a ha, hun b hb, cmpSub_undefined]
    · intro u v w _ _
      rfl
    · intro u v
      rfl

/-!
## Claims about the sorter
-/

/-- C10: for every input sequence, every field name (including one absent from
some or all records) and every direction value, the sequence `sortData`
publishes to the owner's slot is a permutation of the input sequence — the
same record references with the same multiplicities and the same length. -/
theorem C10_sortData_publishes_permutation (w : DatatableSorter.SorterWorld)
    (ev : SortEventDetail) (l : List Nat)
    (h : w.store.arrays.get? w.parentData = some l) :
    ∃ w', DatatableSorter.sortData w ev = some w' ∧
      ∃ out, w'.store.arrays.get? w'.parentData = some out ∧
        out.Perm l ∧ out.length = l.length := by
  unfold DatatableSorter.sortData
  rw [h]
  refine ⟨_, rfl, ?_⟩
  refine ⟨jsSortRefs w.store
      (DatatableSorter.sortBy ev.fieldName
        (if ev.sortDirection = "asc" then -1 else 1)) l, ?_, ?_, ?_⟩
  · show (w.store.arrays ++ [_]).get? w.store.arrays.length = some _
    simp
  · exact List.mergeSort_perm l _
  · exact List.length_mergeSort l

/-- Witness for C10 at a concrete two-record table. -/
theorem C10_sortData_publishes_permutation_witness :
    smallWorld.store.arrays.get? smallWorld.parentData = some [0, 1] ∧
    ∃ w', DatatableSorter.sortData smallWorld ascAge = some w' ∧
      ∃ out, w'.store.arrays.get? w'.parentData = some out ∧
        out.Perm [0, 1] ∧ out.length = [0, 1].length :=
  ⟨rfl, C10_sortData_publishes_permutation smallWorld ascAge [0, 1] rfl⟩

/-- C4: a sort call never mutates the sequence object the owner's slot held
before the call — that array still holds the same elements in the same order
afterwards — nor any record object; the owner's slot is merely rebound to a
freshly created array. -/
theorem C4_sortData_is_non_destructive (w : DatatableSorter.SorterWorld)
    (ev : SortEventDetail) (l : List Nat)
    (h : w.store.arrays.get? w.parentData = some l) :
    ∃ w', DatatableSorter.sortData w ev = some w' ∧
      w'.store.records = w.store.records ∧
      w'.store.arrays.get? w.parentData = some l ∧
      w.store.arrays.get? w'.parentData = none ∧
      w'.parentData ≠ w.parentData := by
  unfold DatatableSorter.sortData
  rw [h]
  have hlt : w.parentData < w.store.arrays.length := by
    rw [List.get?_eq_getElem?] at h
    exact (List.getElem?_eq_some_iff.mp h).1
  refine ⟨_, rfl, rfl, ?_, ?_, ?_⟩
  · show (w.store.arrays ++ [_]).get? w.parentData = some l
    rw [List.get?_eq_getElem?, List.getElem?_append_left hlt, ← List.get?_eq_getElem?]
    exact h
  · show w.store.arrays.get? w.store.arrays.length = none
    rw [List.get?_eq_getElem?]
    exact List.getElem?_eq_none (le_refl _)
  · show w.store.arrays.length ≠ w.parentData
    omega

/-- Witness for C4 at a concrete two-record table. -/
theorem C4_sortData_is_non_destructive_witness :
    smallWorld.store.arrays.get? smallWorld.parentData = some [0, 1] ∧
    ∃ w', DatatableSorter.sortData smallWorld descAge = some w' ∧
      w'.store.records = smallWorld.store.records ∧
      w'.store.arrays.get? smallWorld.parentData = some [0, 1] ∧
      smallWorld.store.arrays.get? w'.parentData = none ∧
      w'.parentData ≠ smallWorld.parentData :=
  ⟨rfl, C4_sortData_is_non_destructive smallWorld descAge [0, 1] rfl⟩

/-- C5: after every successful `sortData` call the sorter's exposed state has
`sortedBy` equal to the event's field and `sortDirection` equal to the event's
direction; a freshly constructed sorter starts with the defaults
`sortDirection = 'asc'`, `sortedBy = null` (and `defaultSortDirection =
'asc'`). -/
theorem C5_sortData_updates_state :
    (∀ (w : DatatableSorter.SorterWorld) (ev : SortEventDetail)
        (w' : DatatableSorter.SorterWorld),
        DatatableSorter.sortData w ev = some w' →
        w'.sorter.sortedBy = some ev.fieldName ∧
        w'.sorter.sortDirection = ev.sortDirection) ∧
    DatatableSorter.construct.sortDirection = "asc" ∧
    DatatableSorter.construct.sortedBy = none ∧
    DatatableSorter.construct.defaultSortDirection = "asc" := by
  refine ⟨?_, rfl, rfl, rfl⟩
  intro w ev w' h
  unfold DatatableSorter.sortData at h
  cases hget : w.store.arrays.get? w.parentData with
  | none => rw [hget] at h; exact absurd h (by simp)
  | some l =>
    rw [hget] at h
    cases h
    exact ⟨rfl, rfl⟩

/-- Witness for C5 at a concrete call. -/
theorem C5_sortData_updates_state_witness :
    DatatableSorter.sortData smallWorld ascAge =
      some ((DatatableSorter.sortData smallWorld ascAge).getD smallWorld) ∧
    ((DatatableSorter.sortData smallWorld ascAge).getD smallWorld).sorter.sortedBy =
      some "age" ∧
    ((DatatableSorter.sortData smallWorld ascAge).getD smallWorld).sorter.sortDirection =
      "asc" := by
  have h : DatatableSorter.sortData smallWorld ascAge =
      some ((DatatableSorter.sortData smallWorld ascAge).getD smallWorld) := rfl
  have h2 := C5_sortData_updates_state.1 _ _ _ h
  exact ⟨h, h2.1, h2.2⟩

theorem concat_get_length {α : Type} (l : List α) (a : α) :
    (l ++ [a]).get? l.length = some a := by simp

/-- Unfolding of a successful `sortData` call. -/
theorem sortData_spec (w : DatatableSorter.SorterWorld) (ev : SortEventDetail)
    (l : List Nat) (h : w.store.arrays.get? w.parentData = some l) :
    DatatableSorter.sortData w ev = some
      { sorter := { defaultSortDirection := w.sorter.defaultSortDirection,
                    sortDirection := ev.sortDirection,
                    sortedBy := some ev.fieldName },
        parentData := w.store.arrays.length,
        store := { records := w.store.records,
                   arrays := w.store.arrays ++
                     [jsSortRefs w.store
                        (DatatableSorter.sortBy ev.fieldName
                          (if ev.sortDirection = "asc" then -1 else 1)) l] } } := by
  unfold DatatableSorter.sortData
  rw [h]

/-- The direction factor of `sortData` is always `±1`. -/
theorem sortData_rev_cases (d : String) :
    (if d = "asc" then (-1 : Int) else 1) = 1 ∨
    (if d = "asc" then (-1 : Int) else 1) = -1 := by
  split
  · exact Or.inr rfl
  · exact Or.inl rfl

/-- C3: the sort is stable — for every input sequence and every pair of
records whose values at the sort field are equal, the pair's relative order
in the published sequence equals its relative order in the input, for either
direction value (relative order is expressed as the pair being a sublist).
The records are assumed homogeneous at the sort field, per the data model. -/
theorem C3_sortData_is_stable (w : DatatableSorter.SorterWorld) (ev : SortEventDetail)
    (l : List Nat) (x y : Nat)
    (h : w.store.arrays.get? w.parentData = some l)
    (hu : FieldUniform w.store ev.fieldName l)
    (hs : [x, y] <+ l)
    (heq : keyOf w.store ev.fieldName x = keyOf w.store ev.fieldName y) :
    ∃ w', DatatableSorter.sortData w ev = some w' ∧
      ∃ out, w'.store.arrays.get? w'.parentData = some out ∧ [x, y] <+ out := by
  refine ⟨_, sortData_spec w ev l h, ?_⟩
  refine ⟨jsSortRefs w.store
      (DatatableSorter.sortBy ev.fieldName
        (if ev.sortDirection = "asc" then -1 else 1)) l,
    concat_get_length _ _, ?_⟩
  apply uniform_pair_sublist w.store ev.fieldName _ l
    (sortData_rev_cases ev.sortDirection) hu x y hs
  simp [cmpLe_sortBy, heq, cmpSub_self_eq_zero]

/-- Witness for C3 at a concrete table with a tie on `age`. -/
theorem C3_sortData_is_stable_witness :
    tieWorld.store.arrays.get? tieWorld.parentData = some [0, 1] ∧
    FieldUniform tieWorld.store ascAge.fieldName [0, 1] ∧
    [0, 1] <+ [0, 1] ∧
    keyOf tieWorld.store ascAge.fieldName 0 = keyOf tieWorld.store ascAge.fieldName 1 ∧
    (∃ w', DatatableSorter.sortData tieWorld ascAge = some w' ∧
      ∃ out, w'.store.arrays.get? w'.parentData = some out ∧ [0, 1] <+ out) := by
  have hu : FieldUniform tieWorld.store ascAge.fieldName [0, 1] := by
    left
    intro r hr
    fin_cases hr
    · exact ⟨35, rfl⟩
    · exact ⟨35, rfl⟩
  exact ⟨rfl, hu, List.Sublist.refl _, rfl,
    C3_sortData_is_stable tieWorld ascAge [0, 1] 0 1 rfl hu (List.Sublist.refl _) rfl⟩

/-- C6: sorting twice with the same descriptor leaves the owner's slot with
the same sequence as sorting once (on a column homogeneous at the sort
field, per the data model). -/
theorem C6_sortData_idempotent (w : DatatableSorter.SorterWorld) (ev : SortEventDetail)
    (l : List Nat)
    (h : w.store.arrays.get? w.parentData = some l)
    (hu : FieldUniform w.store ev.fieldName l) :
    ∃ w₁, DatatableSorter.sortData w ev = some w₁ ∧
      ∃ w₂, DatatableSorter.sortData w₁ ev = some w₂ ∧
        w₂.store.arrays.get? w₂.parentData = w₁.store.arrays.get? w₁.parentData := by
  refine ⟨_, sortData_spec w ev l h, ?_⟩
  refine ⟨_, sortData_spec _ ev _ (concat_get_length _ _), ?_⟩
  have hsorted : jsSortRefs w.store
      (DatatableSorter.sortBy ev.fieldName
        (if ev.sortDirection = "asc" then -1 else 1))
      (jsSortRefs w.store
        (DatatableSorter.sortBy ev.fieldName
          (if ev.sortDirection = "asc" then -1 else 1)) l) =
      jsSortRefs w.store
        (DatatableSorter.sortBy ev.fieldName
          (if ev.sortDirection = "asc" then -1 else 1)) l :=
    List.mergeSort_of_sorted
      (uniform_pairwise w.store ev.fieldName _ l
        (sortData_rev_cases ev.sortDirection) hu)
  show ((w.store.arrays ++ [_]) ++ [_]).get? (w.store.arrays ++ [_]).length =
    (w.store.arrays ++ [_]).get? w.store.arrays.length
  rw [concat_get_length, concat_get_length]
  exact congrArg some hsorted

/-- Witness for C6 at a concrete two-record table. -/
theorem C6_sortData_idempotent_witness :
    smallWorld.store.arrays.get? smallWorld.parentData = some [0, 1] ∧
    FieldUniform smallWorld.store ascAge.fieldName [0, 1] ∧
    (∃ w₁, DatatableSorter.sortData smallWorld ascAge = some w₁ ∧
      ∃ w₂, DatatableSorter.sortData w₁ ascAge = some w₂ ∧
        w₂.store.arrays.get? w₂.parentData = w₁.store.arrays.get? w₁.parentData) := by
  have hu : FieldUniform smallWorld.store ascAge.fieldName [0, 1] := by
    left
    intro r hr
    fin_cases hr
    · exact ⟨40, rfl⟩
    · exact ⟨35, rfl⟩
  exact ⟨rfl, hu, C6_sortData_idempotent smallWorld ascAge [0, 1] rfl hu⟩

theorem cmpSub_of_gt (a b : JSVal) (h : jsGt a b = true) : cmpSub a b = 1 := by
  simp [cmpSub, h, jsGt_asymm a b h]

theorem cmpSub_of_lt (a b : JSVal) (h : jsGt b a = true) : cmpSub a b = -1 := by
  simp [cmpSub, h, jsGt_asymm b a h]

/-- C2: the claimed behaviour fails on the code.  `sortData` maps `'asc'` to
the factor `-1`, and `-1 * ((a>b)-(b>a)) ≤ 0` orders larger values first, so
on `[{age:40},{age:35},{age:50}]` the ascending event publishes ages
`[50,40,35]` and the descending event publishes `[35,40,50]` — each the
reverse of the claim — and on the four-record demo table the event
`{fieldName:'age', sortDirection:'asc'}` publishes ids `[3,1,4,2]`, not the
claimed `[2,4,1,3]`. -/
theorem C2_sortData_direction_is_inverted :
    (∃ w', DatatableSorter.sortData agesWorld ascAge = some w' ∧
      ∃ out, w'.store.arrays.get? w'.parentData = some out ∧
        out.map (keyOf agesStore "age") = [.num 50, .num 40, .num 35]) ∧
    (∃ w', DatatableSorter.sortData agesWorld descAge = some w' ∧
      ∃ out, w'.store.arrays.get? w'.parentData = some out ∧
        out.map (keyOf agesStore "age") = [.num 35, .num 40, .num 50]) ∧
    (∃ w', DatatableSorter.sortData demoSorterWorld ascAge = some w' ∧
      ∃ out, w'.store.arrays.get? w'.parentData = some out ∧
        out.map (keyOf demoStore "id") = [.num 3, .num 1, .num 4, .num 2]) ∧
    ([JSVal.num 3, .num 1, .num 4, .num 2] ≠
      ([JSVal.num 2, .num 4, .num 1, .num 3] : List JSVal)) := by
  refine ⟨⟨_, sortData_spec agesWorld ascAge [0, 1, 2] rfl,
            _, concat_get_length _ _, ?_⟩,
          ⟨_, sortData_spec agesWorld descAge [0, 1, 2] rfl,
            _, concat_get_length _ _, ?_⟩,
          ⟨_, sortData_spec demoSorterWorld ascAge [0, 1, 2, 3] rfl,
            _, concat_get_length _ _, ?_⟩, by decide⟩
  · simp [jsSortRefs, List.mergeSort, List.merge, List.splitInTwo, List.splitAt,
      List.splitAt.go, cmpLe, recAt, keyOf, agesWorld, agesStore, ascAge,
      DatatableSorter.sortBy, cmpSub, getField, assocLookup, jsGt]
  · simp [jsSortRefs, List.mergeSort, List.merge, List.splitInTwo, List.splitAt,
      List.splitAt.go, cmpLe, recAt, keyOf, agesWorld, agesStore, descAge,
      DatatableSorter.sortBy, cmpSub, getField, assocLookup, jsGt]
  · simp [jsSortRefs, List.mergeSort, List.merge, List.splitInTwo, List.splitAt,
      List.splitAt.go, cmpLe, recAt, keyOf, demoSorterWorld, demoStore,
      demoRecords, ascAge, DatatableSorter.sortBy, cmpSub, getField,
      assocLookup, jsGt]

/-- Unfolding of a successful `onHandleSort` call. -/
theorem onHandleSort_spec (w : DemoApp.DemoWorld) (ev : SortEventDetail)
    (l : List Nat) (h : w.store.arrays.get? w.data = some l) :
    DemoApp.onHandleSort w ev = some
      { data := w.store.arrays.length,
        sortDirection := ev.sortDirection,
        sortedBy := some ev.fieldName,
        store := { records := w.store.records,
                   arrays := w.store.arrays ++
                     [jsSortRefs w.store
                        (DemoApp.sortBy ev.fieldName
                          (if ev.sortDirection = "asc" then 1 else -1) none) l] } } := by
  unfold DemoApp.onHandleSort
  rw [h]

/-- C7: the demo component and the reusable class map the event direction to
opposite comparator sign factors (`'asc' ↦ 1` in `DemoApp.onHandleSort`,
`'asc' ↦ -1` in `DatatableSorter.sortData`), so on the same store and the
same event the two entry points publish every pair of records with strictly
ordered values at the sort field in opposite relative orders. -/
theorem C7_demo_and_class_publish_reversed_pairs
    (dw : DemoApp.DemoWorld) (sw : DatatableSorter.SorterWorld)
    (ev : SortEventDetail) (l : List Nat) (x y : Nat)
    (hsame : dw.store = sw.store)
    (hd : dw.store.arrays.get? dw.data = some l)
    (hs : sw.store.arrays.get? sw.parentData = some l)
    (hu : FieldUniform dw.store ev.fieldName l)
    (hx : x ∈ l) (hy : y ∈ l)
    (hgt : jsGt (keyOf dw.store ev.fieldName x) (keyOf dw.store ev.fieldName y) = true) :
    ∃ dw', DemoApp.onHandleSort dw ev = some dw' ∧
    ∃ sw', DatatableSorter.sortData sw ev = some sw' ∧
    ∃ dout sout,
      dw'.store.arrays.get? dw'.data = some dout ∧
      sw'.store.arrays.get? sw'.parentData = some sout ∧
      (if ev.sortDirection = "asc"
        then [y, x] <+ dout ∧ [x, y] <+ sout
        else [x, y] <+ dout ∧ [y, x] <+ sout) := by
  obtain ⟨dData, dDir, dSby, dst⟩ := dw
  obtain ⟨ssorter, sslot, sst⟩ := sw
  simp only at hsame hd hs hu hgt
  subst hsame
  have hne : x ≠ y := by
    intro hxy
    subst hxy
    rw [jsGt_irrefl] at hgt
    exact Bool.false_ne_true hgt
  refine ⟨_, onHandleSort_spec _ ev l hd, _, sortData_spec _ ev l hs, ?_⟩
  refine ⟨_, _, concat_get_length _ _, concat_get_length _ _, ?_⟩
  simp only [DemoApp.sortBy_none]
  by_cases hdir : ev.sortDirection = "asc"
  · simp only [hdir, if_pos rfl, reduceIte]
    constructor
    · -- demo, factor 1: ascending, so y (smaller) precedes x
      have hpd := uniform_pairwise dst ev.fieldName 1 l (Or.inl rfl) hu
      apply pair_sublist_of_pairwise hpd
        (List.mem_mergeSort.mpr hy) (List.mem_mergeSort.mpr hx) (Ne.symm hne)
      simp [cmpLe_sortBy, cmpSub_of_gt _ _ hgt]
    · -- class, factor -1: descending, so x (larger) precedes y
      have hps := uniform_pairwise dst ev.fieldName (-1) l (Or.inr rfl) hu
      apply pair_sublist_of_pairwise hps
        (List.mem_mergeSort.mpr hx) (List.mem_mergeSort.mpr hy) hne
      simp [cmpLe_sortBy, cmpSub_of_lt _ _ hgt]
  · simp only [hdir, if_neg hdir, reduceIte]
    constructor
    · -- demo, factor -1: descending, so x precedes y
      have hpd := uniform_pairwise dst ev.fieldName (-1) l (Or.inr rfl) hu
      apply pair_sublist_of_pairwise hpd
        (List.mem_mergeSort.mpr hx) (List.mem_mergeSort.mpr hy) hne
      simp [cmpLe_sortBy, cmpSub_of_lt _ _ hgt]
    · -- class, factor 1: ascending, so y precedes x
      have hps := uniform_pairwise dst ev.fieldName 1 l (Or.inl rfl) hu
      apply pair_sublist_of_pairwise hps
        (List.mem_mergeSort.mpr hy) (List.mem_mergeSort.mpr hx) (Ne.symm hne)
      simp [cmpLe_sortBy, cmpSub_of_gt _ _ hgt]

/-- Witness for C7 on the demo dataset: records `0` (age 40) and `1`
(age 35) under the ascending event. -/
theorem C7_demo_and_class_publish_reversed_pairs_witness :
    demoAppWorld.store = demoSorterWorld.store ∧
    demoAppWorld.store.arrays.get? demoAppWorld.data = some [0, 1, 2, 3] ∧
    demoSorterWorld.store.arrays.get? demoSorterWorld.parentData = some [0, 1, 2, 3] ∧
    FieldUniform demoAppWorld.store ascAge.fieldName [0, 1, 2, 3] ∧
    0 ∈ [0, 1, 2, 3] ∧ 1 ∈ [0, 1, 2, 3] ∧
    jsGt (keyOf demoAppWorld.store ascAge.fieldName 0)
      (keyOf demoAppWorld.store ascAge.fieldName 1) = true ∧
    (∃ dw', DemoApp.onHandleSort demoAppWorld ascAge = some dw' ∧
     ∃ sw', DatatableSorter.sortData demoSorterWorld ascAge = some sw' ∧
     ∃ dout sout,
       dw'.store.arrays.get? dw'.data = some dout ∧
       sw'.store.arrays.get? sw'.parentData = some sout ∧
       (if ascAge.sortDirection = "asc"
         then [1, 0] <+ dout ∧ [0, 1] <+ sout
         else [0, 1] <+ dout ∧ [1, 0] <+ sout)) := by
  have hu : FieldUniform demoAppWorld.store ascAge.fieldName [0, 1, 2, 3] := by
    left
    intro r hr
    fin_cases hr
    · exact ⟨40, rfl⟩
    · exact ⟨35, rfl⟩
    · exact ⟨50, rfl⟩
    · exact ⟨37, rfl⟩
  refine ⟨rfl, rfl, rfl, hu, by decide, by decide, by decide, ?_⟩
  exact C7_demo_and_class_publish_reversed_pairs demoAppWorld demoSorterWorld
    ascAge [0, 1, 2, 3] 0 1 rfl rfl rfl hu (by decide) (by decide) (by decide)

/-!
## Facts about property tables and `protectThis`
-/

theorem assocLookup_setProp_self (ps : List (String × PropVal)) (k : String) (v : PropVal) :
    assocLookup (setProp ps k v) k = some v := by
  induction ps with
  | nil => simp [setProp, assocLookup]
  | cons p rest ih =>
    obtain ⟨k', v'⟩ := p
    by_cases h : k' = k
    · subst h
      simp [setProp, assocLookup]
    · simp [setProp, assocLookup, h, ih]

theorem assocLookup_setProp_ne (ps : List (String × PropVal)) (k name : String)
    (v : PropVal) (h : k ≠ name) :
    assocLookup (setProp ps k v) name = assocLookup ps name := by
  induction ps with
  | nil => simp [setProp, assocLookup, h]
  | cons p rest ih =>
    obtain ⟨k', v'⟩ := p
    by_cases h2 : k' = k
    · subst h2
      simp [setProp, assocLookup, h]
    · simp [setProp, assocLookup, h2, ih]

theorem setOwn_protos (w : World) (o : Nat) (n : String) (v : PropVal) :
    (setOwn w o n v).protos = w.protos := by
  unfold setOwn
  cases h : w.objs.get? o <;> rfl

theorem setOwn_objs_get_other (w : World) (o : Nat) (n : String) (v : PropVal)
    (j : Nat) (hj : j ≠ o) :
    (setOwn w o n v).objs.get? j = w.objs.get? j := by
  unfold setOwn
  cases h : w.objs.get? o
  · rfl
  · show (w.objs.set o _).get? j = w.objs.get? j
    rw [List.get?_eq_getElem?, List.get?_eq_getElem?]
    exact List.getElem?_set_ne (Ne.symm hj)

theorem setOwn_objs_get_self (w : World) (o : Nat) (n : String) (v : PropVal)
    (obj : Instance) (h : w.objs.get? o = some obj) :
    (setOwn w o n v).objs.get? o = some { obj with own := setProp obj.own n v } := by
  unfold setOwn
  rw [h]
  show (w.objs.set o _).get? o = _
  rw [List.get?_eq_getElem?]
  rw [List.getElem?_set_self]
  rw [List.get?_eq_getElem?] at h
  exact (List.getElem?_eq_some_iff.mp h).1

theorem setOwn_isSome (w : World) (o : Nat) (n : String) (v : PropVal) :
    ((setOwn w o n v).objs.get? o).isSome = (w.objs.get? o).isSome := by
  cases h : w.objs.get? o
  · have hw : setOwn w o n v = w := by unfold setOwn; rw [h]
    rw [hw, h]
  · rw [setOwn_objs_get_self w o n v _ h]
    rfl

theorem protoOf_setOwn (w : World) (o : Nat) (n : String) (v : PropVal) (i : Nat) :
    protoOf (setOwn w o n v) i = protoOf w i := by
  unfold protoOf
  rw [setOwn_protos]
  by_cases hio : i = o
  · subst hio
    cases h : w.objs.get? i
    · conv_lhs => rw [show setOwn w i n v = w from by unfold setOwn; rw [h]]
      rw [h]
    · rw [setOwn_objs_get_self w i n v _ h]
  · rw [setOwn_objs_get_other w o n v i hio]

theorem getProp_setOwn_other (w : World) (o : Nat) (n : String) (v : PropVal)
    (j : Nat) (hj : j ≠ o) (name : String) :
    getProp (setOwn w o n v) j name = getProp w j name := by
  unfold getProp
  rw [setOwn_objs_get_other w o n v j hj, setOwn_protos]

theorem getProp_setOwn_ne (w : World) (o : Nat) (n : String) (v : PropVal)
    (name : String) (h : name ≠ n) :
    getProp (setOwn w o n v) o name = getProp w o name := by
  cases hobj : w.objs.get? o
  · conv_lhs => rw [show setOwn w o n v = w from by unfold setOwn; rw [hobj]]
  · unfold getProp
    rw [setOwn_objs_get_self w o n v _ hobj, setOwn_protos, hobj]
    show (match assocLookup (setProp _ n v) name with
      | some pv => some pv
      | none => assocLookup _ name) = _
    rw [assocLookup_setProp_ne _ n name v (Ne.symm h)]

theorem getProp_setOwn_self (w : World) (o : Nat) (n : String) (v : PropVal)
    (obj : Instance) (h : w.objs.get? o = some obj) :
    getProp (setOwn w o n v) o n = some v := by
  unfold getProp
  rw [setOwn_objs_get_self w o n v _ h]
  show (match assocLookup (setProp _ n v) n with
    | some pv => some pv
    | none => assocLookup _ n) = _
  rw [assocLookup_setProp_self]

theorem wrapStep_protos (o : Nat) (w : World) (n : String) :
    (wrapStep o w n).protos = w.protos := setOwn_protos _ _ _ _

theorem wrapStep_objs_get_other (o : Nat) (w : World) (n : String)
    (j : Nat) (hj : j ≠ o) :
    (wrapStep o w n).objs.get? j = w.objs.get? j := setOwn_objs_get_other _ _ _ _ _ hj

theorem wrapStep_isSome (o : Nat) (w : World) (n : String) :
    ((wrapStep o w n).objs.get? o).isSome = (w.objs.get? o).isSome :=
  setOwn_isSome _ _ _ _

theorem wrapStep_protoOf (o : Nat) (w : World) (n : String) (i : Nat) :
    protoOf (wrapStep o w n) i = protoOf w i := protoOf_setOwn _ _ _ _ _

theorem wrapStep_getProp_other (o : Nat) (w : World) (n : String)
    (j : Nat) (hj : j ≠ o) (name : String) :
    getProp (wrapStep o w n) j name = getProp w j name :=
  getProp_setOwn_other _ _ _ _ _ hj _

theorem wrapStep_getProp_ne (o : Nat) (w : World) (n name : String) (h : name ≠ n) :
    getProp (wrapStep o w n) o name = getProp w o name :=
  getProp_setOwn_ne _ _ _ _ _ h

theorem wrapStep_getProp_self (o : Nat) (w : World) (n : String)
    (obj : Instance) (h : w.objs.get? o = some obj) :
    getProp (wrapStep o w n) o n =
      some (.fn fun _ args => applyFn (getProp w o n) (some o) args) :=
  getProp_setOwn_self _ _ _ _ _ h

/-- Wrapping preserves the behaviour of every method invocation with the
instance as context: the wrapper applies the captured definition to the very
same context. -/
theorem wrapStep_invokeMethod (o : Nat) (w : World) (n name : String)
    (args : List JSVal) :
    invokeMethod (wrapStep o w n) o name args = invokeMethod w o name args := by
  by_cases hn : name = n
  · subst hn
    cases h : w.objs.get? o
    · have hw : wrapStep o w name = w := by
        unfold wrapStep setOwn
        rw [h]
      rw [hw]
    · unfold invokeMethod
      rw [wrapStep_getProp_self o w name _ h]
      rfl
  · unfold invokeMethod
    rw [wrapStep_getProp_ne o w n name hn]

theorem foldWrap_protos (o : Nat) (ns : List String) (w : World) :
    (ns.foldl (wrapStep o) w).protos = w.protos := by
  induction ns generalizing w with
  | nil => rfl
  | cons n rest ih => rw [List.foldl_cons, ih, wrapStep_protos]

theorem foldWrap_objs_get_other (o : Nat) (ns : List String) (w : World)
    (j : Nat) (hj : j ≠ o) :
    (ns.foldl (wrapStep o) w).objs.get? j = w.objs.get? j := by
  induction ns generalizing w with
  | nil => rfl
  | cons n rest ih => rw [List.foldl_cons, ih, wrapStep_objs_get_other o w n j hj]

theorem foldWrap_isSome (o : Nat) (ns : List String) (w : World) :
    ((ns.foldl (wrapStep o) w).objs.get? o).isSome = (w.objs.get? o).isSome := by
  induction ns generalizing w with
  | nil => rfl
  | cons n rest ih => rw [List.foldl_cons, ih, wrapStep_isSome]

theorem foldWrap_protoOf (o : Nat) (ns : List String) (w : World) (i : Nat) :
    protoOf (ns.foldl (wrapStep o) w) i = protoOf w i := by
  induction ns generalizing w with
  | nil => rfl
  | cons n rest ih => rw [List.foldl_cons, ih, wrapStep_protoOf]

theorem foldWrap_getProp_other (o : Nat) (ns : List String) (w : World)
    (j : Nat) (hj : j ≠ o) (name : String) :
    getProp (ns.foldl (wrapStep o) w) j name = getProp w j name := by
  induction ns generalizing w with
  | nil => rfl
  | cons n rest ih => rw [List.foldl_cons, ih, wrapStep_getProp_other o w n j hj]

theorem foldWrap_getProp_notin (o : Nat) (ns : List String) (w : World)
    (name : String) (h : name ∉ ns) :
    getProp (ns.foldl (wrapStep o) w) o name = getProp w o name := by
  induction ns generalizing w with
  | nil => rfl
  | cons n rest ih =>
    rw [List.foldl_cons, ih _ (fun hmem => h (List.mem_cons_of_mem n hmem)),
      wrapStep_getProp_ne o w n name (fun he => h (he ▸ List.mem_cons_self name rest))]

/-- Rewrapping never changes what a method invocation with the instance as
context does. -/
theorem foldWrap_invokeMethod (o : Nat) (ns : List String) (w : World)
    (name : String) (args : List JSVal) :
    invokeMethod (ns.foldl (wrapStep o) w) o name args = invokeMethod w o name args := by
  induction ns generalizing w with
  | nil => rfl
  | cons n rest ih => rw [List.foldl_cons, ih, wrapStep_invokeMethod]

/-- After folding the wrap step over a list containing `name`, the own
property `name` holds a wrapper that ignores the `this` it is called with. -/
theorem foldWrap_wrapped (o : Nat) (ns : List String) (w : World)
    (name : String) (h : name ∈ ns) (hobj : (w.objs.get? o).isSome = true) :
    ∃ g : Fn, getProp (ns.foldl (wrapStep o) w) o name = some (.fn g) ∧
      ∀ t₁ t₂ args, g t₁ args = g t₂ args := by
  induction ns generalizing w with
  | nil => exact absurd h (List.not_mem_nil name)
  | cons n rest ih =>
    rw [List.foldl_cons]
    by_cases hin : name ∈ rest
    · exact ih (wrapStep o w n) hin (by rw [wrapStep_isSome]; exact hobj)
    · have hname : name = n := by
        rcases List.mem_cons.mp h with h1 | h2
        · exact h1
        · exact absurd h2 hin
      subst hname
      rw [foldWrap_getProp_notin o rest (wrapStep o w name) name hin]
      obtain ⟨obj, hobj'⟩ := Option.isSome_iff_exists.mp hobj
      exact ⟨_, wrapStep_getProp_self o w name obj hobj', fun t₁ t₂ args => rfl⟩

/-- After `protectThis`, a detached invocation of a prototype-reachable name
agrees with a context-full method invocation. -/
theorem protect_detached_eq_method (w : World) (o : Nat) (name : String)
    (args : List JSVal) (hname : name ∈ (protoOf w o).map Prod.fst) :
    invokeDetached (protectThis w o) o name args =
      invokeMethod (protectThis w o) o name args := by
  cases hobj : w.objs.get? o with
  | none =>
    have hpr : protoOf w o = [] := by unfold protoOf; rw [hobj]
    rw [hpr] at hname
    exact absurd hname (List.not_mem_nil name)
  | some obj =>
    by_cases hp : isFunction (getProp w o name) = true
    · have hmem : name ∈ ((protoOf w o).map Prod.fst).filter
          (fun n => isFunction (getProp w o n)) := List.mem_filter.mpr ⟨hname, hp⟩
      obtain ⟨g, hg, hfree⟩ := foldWrap_wrapped o _ w name hmem (by rw [hobj]; rfl)
      unfold protectThis invokeDetached invokeMethod
      rw [hg]
      exact hfree none (some o) args
    · have hnotmem : name ∉ ((protoOf w o).map Prod.fst).filter
          (fun n => isFunction (getProp w o n)) := fun hmem =>
        hp (List.mem_filter.mp hmem).2
      unfold protectThis invokeDetached invokeMethod
      rw [foldWrap_getProp_notin o _ w name hnotmem]
      cases hgp : getProp w o name with
      | none => rfl
      | some pv =>
        cases pv with
        | fn f => rw [hgp] at hp; exact absurd rfl hp
        | val v => rfl

/-- C1: for an instance `protectThis` has been applied to, extracting any
method reachable from its prototype as a bare function reference and
invoking it with no calling context gives exactly the same result as
invoking it as `instance.method(...)` with the same arguments. -/
theorem C1_protectThis_preserves_context (w : World) (objId : Nat)
    (name : String) (args : List JSVal)
    (hname : name ∈ (protoOf w objId).map Prod.fst) :
    invokeDetached (protectThis w objId) objId name args =
      invokeMethod (protectThis w objId) objId name args :=
  protect_detached_eq_method w objId name args hname

/-- Witness for C1: the sample method `m`, whose body observes its `this`. -/
theorem C1_protectThis_preserves_context_witness :
    "m" ∈ (protoOf exampleObjWorld 0).map Prod.fst ∧
    invokeDetached (protectThis exampleObjWorld 0) 0 "m" [JSVal.num 7] =
      invokeMethod (protectThis exampleObjWorld 0) 0 "m" [JSVal.num 7] :=
  ⟨by decide,
   C1_protectThis_preserves_context exampleObjWorld 0 "m" [JSVal.num 7] (by decide)⟩

/-- C8: `protectThis` rewrites only the given instance's own property table:
the shared prototype objects are unchanged and every other instance's table
and observable properties are untouched. -/
theorem C8_protectThis_only_touches_the_instance (w : World) (o j : Nat)
    (hj : j ≠ o) :
    (protectThis w o).protos = w.protos ∧
    (protectThis w o).objs.get? j = w.objs.get? j ∧
    ∀ name, getProp (protectThis w o) j name = getProp w j name :=
  ⟨foldWrap_protos o _ w, foldWrap_objs_get_other o _ w j hj,
   fun name => foldWrap_getProp_other o _ w j hj name⟩

/-- Witness for C8: protecting instance `0` leaves instance `1` (sharing the
same prototype) untouched. -/
theorem C8_protectThis_only_touches_the_instance_witness :
    (1 : Nat) ≠ 0 ∧
    (protectThis exampleObjWorld 0).protos = exampleObjWorld.protos ∧
    (protectThis exampleObjWorld 0).objs.get? 1 = exampleObjWorld.objs.get? 1 ∧
    getProp (protectThis exampleObjWorld 0) 1 "m" = getProp exampleObjWorld 1 "m" := by
  have h := C8_protectThis_only_touches_the_instance exampleObjWorld 0 1 (by decide)
  exact ⟨by decide, h.1, h.2.1, h.2.2 "m"⟩

/-- C9: applying `protectThis` twice is safe — every invocation (as a method,
and detached for prototype-reachable names) returns the same value as after a
single application — and when the prototype exposes no callable member the
call is a no-op. -/
theorem C9_protectThis_idempotent_and_noop (w : World) (o : Nat) :
    (∀ name args,
      invokeMethod (protectThis (protectThis w o) o) o name args =
        invokeMethod (protectThis w o) o name args) ∧
    (∀ name args, name ∈ (protoOf w o).map Prod.fst →
      invokeDetached (protectThis (protectThis w o) o) o name args =
        invokeDetached (protectThis w o) o name args) ∧
    ((∀ n ∈ (protoOf w o).map Prod.fst, ¬ isFunction (getProp w o n) = true) →
      protectThis w o = w) := by
  refine ⟨?_, ?_, ?_⟩
  · intro name args
    exact foldWrap_invokeMethod o _ (protectThis w o) name args
  · intro name args hname
    have hpo : protoOf (protectThis w o) o = protoOf w o :=
      foldWrap_protoOf o _ w o
    have hname' : name ∈ (protoOf (protectThis w o) o).map Prod.fst := by
      rw [hpo]
      exact hname
    have h1 := protect_detached_eq_method (protectThis w o) o name args hname'
    have h2 := protect_detached_eq_method w o name args hname
    have h3 : invokeMethod (protectThis (protectThis w o) o) o name args =
        invokeMethod (protectThis w o) o name args :=
      foldWrap_invokeMethod o _ (protectThis w o) name args
    rw [h1, h3, ← h2]
  · intro hnone
    have hfil : ((protoOf w o).map Prod.fst).filter
        (fun n => isFunction (getProp w o n)) = [] := by
      rw [List.filter_eq_nil_iff]
      intro a ha
      simpa using hnone a ha
    unfold protectThis
    rw [hfil]
    rfl

/-- Witness for C9: double protection of the sample instance, and the no-op
on an instance whose prototype has no callable member. -/
theorem C9_protectThis_idempotent_and_noop_witness :
    (invokeMethod (protectThis (protectThis exampleObjWorld 0) 0) 0 "m" [] =
      invokeMethod (protectThis exampleObjWorld 0) 0 "m" []) ∧
    "m" ∈ (protoOf exampleObjWorld 0).map Prod.fst ∧
    (invokeDetached (protectThis (protectThis exampleObjWorld 0) 0) 0 "m" [] =
      invokeDetached (protectThis exampleObjWorld 0) 0 "m" []) ∧
    (∀ n ∈ (protoOf plainWorld 0).map Prod.fst,
      ¬ isFunction (getProp plainWorld 0 n) = true) ∧
    protectThis plainWorld 0 = plainWorld := by
  refine ⟨(C9_protectThis_idempotent_and_noop exampleObjWorld 0).1 "m" [],
    by decide,
    (C9_protectThis_idempotent_and_noop exampleObjWorld 0).2.1 "m" [] (by decide),
    by decide,
    (C9_protectThis_idempotent_and_noop plainWorld 0).2.2 (by decide)⟩
